import Mathlib

/-!
Verification development for the `fantasylife_tools` repository
(`table.py`, `scr.py`): a shallow embedding of the row-schema compiler
(`newrowclass`), row decoding/encoding (`feed` / `tobytes`), and the SCR
container parser and control-code string decoder (`SCR.__init__`,
`SCR.iterrowbytes`, `SCR.getstring`, `load`).

Bytes are modelled as `List Nat` (each element a byte value `< 256`).
Python byte-string slicing `raw[a:b]` (which clamps out-of-range indices
and returns the empty string when `b ≤ a`) is modelled by `pyslice`.
`struct.unpack` / `struct.pack` of the fixed-width formats used by the
code are modelled by explicit little-endian (or byte-reversed big-endian)
arithmetic on `Nat` / `Int`.
-/

namespace FLTools

/-- A byte buffer: Python `bytes`, one `Nat` (`< 256`) per byte. -/
abbrev Buf := List Nat

/-- Python slice `raw[a:b]` on a byte string: clamps to the buffer and
returns `[]` when `b ≤ a`. -/
def pyslice (l : Buf) (a b : Nat) : Buf := (l.drop a).take (b - a)

/-- Value of a little-endian byte string (least significant byte first). -/
def leNat : Buf → Nat
  | [] => 0
  | b :: rest => b + 256 * leNat rest

/-- The `w` little-endian bytes of `n` (as produced by `struct.pack`
for an unsigned field of width `w`, assuming `n < 256 ^ w`). -/
def leBytes : Nat → Nat → Buf
  | 0, _ => []
  | w + 1, n => n % 256 :: leBytes w (n / 256)

theorem leBytes_length (w n : Nat) : (leBytes w n).length = w := by
  induction w generalizing n with
  | zero => rfl
  | succ w ih => simpa [leBytes] using ih (n / 256)

theorem leNat_lt (bs : Buf) (h : ∀ b ∈ bs, b < 256) :
    leNat bs < 256 ^ bs.length := by
  induction bs with
  | nil => simp [leNat]
  | cons b rest ih =>
    have hb : b < 256 := h b (List.mem_cons_self b rest)
    have hr : leNat rest < 256 ^ rest.length :=
      ih fun x hx => h x (List.mem_cons_of_mem b hx)
    calc b + 256 * leNat rest
        ≤ 255 + 256 * leNat rest := by omega
      _ < 256 * (leNat rest + 1) := by omega
      _ ≤ 256 * 256 ^ rest.length := by
          exact Nat.mul_le_mul_left _ (by omega)
      _ = 256 ^ (rest.length + 1) := by ring

theorem leBytes_leNat (bs : Buf) (h : ∀ b ∈ bs, b < 256) :
    leBytes bs.length (leNat bs) = bs := by
  induction bs with
  | nil => rfl
  | cons b rest ih =>
    have hb : b < 256 := h b (List.mem_cons_self b rest)
    have hmod : (b + 256 * leNat rest) % 256 = b := by
      omega
    have hdiv : (b + 256 * leNat rest) / 256 = leNat rest := by
      omega
    simp only [List.length_cons, leBytes, leNat, hmod, hdiv]
    exact congrArg (b :: ·) (ih fun x hx => h x (List.mem_cons_of_mem b hx))

theorem leNat_leBytes (w n : Nat) (h : n < 256 ^ w) :
    leNat (leBytes w n) = n := by
  induction w generalizing n with
  | zero => simp [leBytes, leNat]; omega
  | succ w ih =>
    have : n / 256 < 256 ^ w := by
      have h2 : 256 ^ (w + 1) = 256 * 256 ^ w := by ring
      omega
    simp [leBytes, leNat, ih (n / 256) this]
    omega

/-! ### `table.py`: column kinds and the schema compiler `newrowclass` -/

/-- The closed set of column type strings accepted by `newrowclass`
(the keys of its `types` dictionary in `table.py`). -/
inductive ColType
  | s8 | u8 | s16 | u16 | s32 | u32 | s64 | u64
  | f32 | str | ptr
  | bit8 | bit16 | bit32 | bit64
  | enum8 | enum16
deriving DecidableEq, Repr

/-- The `struct` format character assigned to each type
(`types` dictionary in `newrowclass`). -/
def ColType.structChar : ColType → Char
  | .s8 => 'b' | .u8 => 'B' | .s16 => 'h' | .u16 => 'H'
  | .s32 => 'i' | .u32 => 'I' | .s64 => 'q' | .u64 => 'Q'
  | .f32 => 'f' | .str => 'I' | .ptr => 'I'
  | .bit8 => 'B' | .bit16 => 'H' | .bit32 => 'I' | .bit64 => 'Q'
  | .enum8 => 'B' | .enum16 => 'H'

/-- `calcsize` of the type's struct character, in bytes. -/
def ColType.width : ColType → Nat
  | .s8 | .u8 | .bit8 | .enum8 => 1
  | .s16 | .u16 | .bit16 | .enum16 => 2
  | .s32 | .u32 | .f32 | .str | .ptr | .bit32 => 4
  | .s64 | .u64 | .bit64 => 8

/-- Python `column['type'].startswith('bit')`. -/
def ColType.isBit : ColType → Bool
  | .bit8 | .bit16 | .bit32 | .bit64 => true
  | _ => false

/-- Python `column['type'].startswith('enum')`. -/
def ColType.isEnum : ColType → Bool
  | .enum8 | .enum16 => true
  | _ => false

/-- Signed integer struct formats (`b`, `h`, `i`, `q`). -/
def ColType.isSigned : ColType → Bool
  | .s8 | .s16 | .s32 | .s64 => true
  | _ => false

/-- One bit sub-field descriptor of a bitfield column
(an element of `column['columns']`). -/
structure BitColumn where
  name : String
  offset : Nat
  length : Nat
deriving DecidableEq, Repr

/-- One column descriptor (an element of `tableinfo['columns']`).
`columns` is only meaningful for `bit*` types, `enum` only for `enum*`
types (Python stores these as optional dictionary keys; fields unused by
a type are ignored, matching the code, which never reads them). The
`enum` table models the JSON value-to-label dictionary, keyed by the
decoded integer (Python keys it by the decimal string `format(element)`). -/
structure ColumnInfo where
  name : String
  type : ColType
  offset : Nat
  columns : List BitColumn
  enum : List (Nat × String)
deriving DecidableEq, Repr

/-- A compiled field of the row layout: either a synthesized gap
(struct format `'{n}s'`) or a declared column. -/
inductive FieldSpec
  | gap (width : Nat)
  | real (c : ColumnInfo)
deriving DecidableEq, Repr

/-- Byte width of a compiled field. -/
def FieldSpec.width : FieldSpec → Nat
  | .gap w => w
  | .real c => c.type.width

/-- The byte-order choices meaningful to `struct`: the `tableinfo`
may carry an `'endianess'` key whose value is spliced in front of the
format string; absent, `newrowclass` uses `'<'`. -/
inductive Endian
  | le | be
deriving DecidableEq, Repr

/-- The struct byte-order character for an `Endian`. -/
def Endian.str : Endian → String
  | .le => "<"
  | .be => ">"

/-- The compiled row class: the struct format string, its byte order,
and the ordered compiled fields (one struct element each). Models the
`Row` namedtuple class produced by `newrowclass` together with its
`struct_obj` and `columns` attributes. -/
structure RowClass where
  structstr : String
  little : Bool
  fields : List FieldSpec
deriving DecidableEq, Repr

/-- The column-walking loop of `newrowclass` (`for column in
tableinfo['columns']`), carried out from running cursor `gapstart`:
returns the format-string fragment, the compiled fields, and the final
cursor. A gap field `'{n}s'` is synthesized before a column exactly when
`column['offset'] > gapstart`, and the cursor advances to
`column['offset'] + calcsize(structchr)`. -/
def newrowclassAux : Nat → List ColumnInfo → String × List FieldSpec × Nat
  | g, [] => ("", [], g)
  | g, c :: rest =>
    let gapS : String := if c.offset > g then toString (c.offset - g) ++ "s" else ""
    let gapF : List FieldSpec := if c.offset > g then [.gap (c.offset - g)] else []
    let t := newrowclassAux (c.offset + c.type.width) rest
    (gapS ++ String.singleton c.type.structChar ++ t.1, gapF ++ (.real c :: t.2.1), t.2.2)

/-- `newrowclass(tableinfo)`: compiles the column descriptors into a row
class. `endianess` models the optional `'endianess'` key (absent ↦ the
`'<'` default chosen by the `except KeyError` branch); `row_length`
models `tableinfo['row_length']`. A trailing gap is synthesized when the
final cursor is short of the row length. The function performs no other
validation (there is no error path in the source). -/
def newrowclass (endianess : Option Endian) (row_length : Nat)
    (cols : List ColumnInfo) : RowClass :=
  let e := endianess.getD .le
  let t := newrowclassAux 0 cols
  let fin := t.2.2
  let tailS : String := if fin < row_length then toString (row_length - fin) ++ "s" else ""
  let tailF : List FieldSpec := if fin < row_length then [.gap (row_length - fin)] else []
  { structstr := e.str ++ t.1 ++ tailS
    little := e.str = "<"
    fields := t.2.1 ++ tailF }

/-- Total byte size of the compiled struct (`struct_obj.size`:
for `'<'`/`'>'` formats there is no padding, so the size is the sum of
the field widths). -/
def widthSum (fields : List FieldSpec) : Nat :=
  (fields.map FieldSpec.width).sum

/-- The declared columns of a compiled field list, in order
(dropping synthesized gaps). -/
def realCols (fields : List FieldSpec) : List ColumnInfo :=
  fields.filterMap fun f =>
    match f with
    | .real c => some c
    | .gap _ => none

/-- Each compiled field paired with its byte start offset within the
row, in struct order (field `i+1` starts where field `i` ends). -/
def fieldStarts (start : Nat) : List FieldSpec → List (Nat × FieldSpec)
  | [] => []
  | f :: fs => (start, f) :: fieldStarts (start + f.width) fs

/-! ### `table.py`: row decoding (`feed`) and encoding (`tobytes`) -/

/-- CPython's `struct.unpack('f')` reads the 4 bytes as a C `float`
and widens it to the C `double` held by the Python float object. The
IEEE formatOf widening (x86 `cvtss2sd`, ARM `fcvt`) is exact for every
binary32 value except that a signaling NaN (exponent all ones,
non-zero mantissa, quiet bit 22 clear) signals and is delivered
quieted: quiet bit set, sign and payload preserved. `quiet32` is that
conversion on the 32-bit pattern: the pattern of the binary32 that the
stored double narrows back to. -/
def quiet32 (n : Nat) : Nat :=
  if (n >>> 23) &&& 0xFF = 0xFF ∧ n &&& 0x7FFFFF ≠ 0 ∧ (n >>> 22) &&& 1 = 0 then
    n ||| 0x400000
  else n

/-- A decoded field value, as Python stores it in the `Row` namedtuple:
an `int` (integer formats; raw bitfield values and sub-values; raw
string references when no hook is supplied), a Python `str` (resolved
string references and enum labels), the raw bytes of a gap field, or a
float. A float is represented by the 32-bit pattern of the binary32
value the stored double corresponds to: `struct.unpack('f')` widens
through a C double, which preserves every pattern except signaling
NaNs, which it quiets (see `quiet32`); `struct.pack('f')` narrows that
double back exactly. -/
inductive Value
  | int (i : Int)
  | flt (bits : Nat)
  | str (s : String)
  | bytes (bs : Buf)
deriving DecidableEq, Repr

/-- Errors raised by `feed`: `struct.error` when the byte string's
length differs from the struct size, and the `KeyError` raised by
`info['enum'][format(element)]` when the decoded value has no label. -/
inductive FeedError
  | sizeMismatch
  | keyError (v : Nat)
deriving DecidableEq, Repr

/-- `struct` word value of a field's byte chunk: little-endian for
`'<'` formats, byte-reversed for `'>'`. -/
def unpackWord (little : Bool) (bs : Buf) : Nat :=
  if little then leNat bs else leNat bs.reverse

/-- Two's-complement reading of an unsigned word of byte width `w`,
as `struct.unpack` performs for the signed formats `b`/`h`/`i`/`q`. -/
def toSigned (w n : Nat) : Int :=
  if n < 2 ^ (8 * w - 1) then (n : Int) else (n : Int) - 2 ^ (8 * w)

/-- Python dictionary lookup `info['enum'][format(element)]`, with the
table modelled as an association list keyed by the decoded integer. -/
def lookupEnum (table : List (Nat × String)) (n : Nat) : Option String :=
  (table.find? fun p => p.1 = n).map Prod.snd

/-- One iteration of the `for info, element in zip(cls.columns, rawdata)`
loop of `feed`, fused with the struct unpacking of the field's byte
chunk (for `'<'`/`'>'` formats, `struct.unpack` reads the fields
sequentially with no padding, so unpacking the whole row and walking
the elements is the same as unpacking chunk by chunk):
* a gap field (`'{n}s'`) unpacks to its raw bytes and is appended as-is
  (its `type` `'gap'` matches none of the loop's special cases);
* `'str'` with a hook appends `hook(element)`; without a hook it falls
  through to the final `else` and appends the raw unsigned element;
* `bit*` appends the raw element, then
  `(element >> offset) & ((1 << length) - 1)` per sub-column;
* `enum*` appends the label, raising `KeyError` when absent;
* signed formats append the two's-complement reading, `f32` the float
  (its pattern after the widening conversion, see `quiet32`), all
  remaining formats the raw unsigned element. -/
def decodeField (little : Bool) (hook : Option (Nat → String))
    (f : FieldSpec) (chunk : Buf) : Except FeedError (List Value) :=
  match f with
  | .gap _ => .ok [.bytes chunk]
  | .real c =>
    let n := unpackWord little chunk
    if c.type = .str then
      match hook with
      | some h => .ok [.str (h n)]
      | none => .ok [.int n]
    else if c.type.isBit then
      .ok (.int n :: c.columns.map fun bc =>
        .int ((n >>> bc.offset) &&& (2 ^ bc.length - 1) : Nat))
    else if c.type.isEnum then
      match lookupEnum c.enum n with
      | some lab => .ok [.str lab]
      | none => .error (.keyError n)
    else if c.type.isSigned then .ok [.int (toSigned c.type.width n)]
    else if c.type = .f32 then .ok [.flt (quiet32 n)]
    else .ok [.int n]

/-- The full column loop of `feed` over the row's bytes, consuming each
field's chunk in struct order. -/
def feedFields (little : Bool) (hook : Option (Nat → String)) :
    List FieldSpec → Buf → Except FeedError (List Value)
  | [], _ => .ok []
  | f :: fs, bs =>
    match decodeField little hook f (bs.take f.width) with
    | .error e => .error e
    | .ok vs =>
      match feedFields little hook fs (bs.drop f.width) with
      | .error e => .error e
      | .ok rest => .ok (vs ++ rest)

/-- `feed(cls, bytes_obj, get_string_hook)`: `struct_obj.unpack` raises
`struct.error` unless the byte string's length equals the struct size;
then the column loop produces the row's values. -/
def feed (rc : RowClass) (bs : Buf) (hook : Option (Nat → String)) :
    Except FeedError (List Value) :=
  if bs.length = widthSum rc.fields then feedFields rc.little hook rc.fields bs
  else .error .sizeMismatch

/-- Errors raised inside `tobytes`:
* `attributeError`: the source reads each value as
  `self.__getattr__(column['name'])`, but namedtuple instances define
  no `__getattr__` method, so this lookup raises `AttributeError`
  before anything else happens;
* `keyErrorName`: gap entries of `newtableinfo` are
  `OrderedDict([('type', 'gap')])` with no `'name'` key, so
  `column['name']` raises `KeyError` for them;
* `typeError`: `struct.error` — packing a non-integer value (an enum
  label or a hook-resolved string) with an integer format character;
* `rangeError`: `struct.error` — an integer out of its format's range;
* `arity`: a value-count mismatch against the field list (unreachable
  for rows produced by `feed`). -/
inductive PackError
  | attributeError
  | keyErrorName
  | typeError
  | rangeError
  | arity
deriving DecidableEq, Repr

/-- `struct`-packing of an unsigned word of byte width `w`. -/
def packWord (little : Bool) (w n : Nat) : Buf :=
  if little then leBytes w n else (leBytes w n).reverse

/-- The bitfield re-packing loop of `tobytes`:
`bitdata |= ((1 << length) - 1) << offset` followed by
`bitdata &= subvalue << offset`, folded over the sub-columns, pairing
each sub-column with its row value. Arithmetic is on Python's unbounded
`int`, modelled by `Int.lor` / `Int.land` / `<<<`. -/
def packBits (acc : Int) : List BitColumn → List Value →
    Except PackError (Int × List Value)
  | [], vs => .ok (acc, vs)
  | bc :: bcs, vs =>
    match vs with
    | .int sub :: vs' =>
      packBits
        (Int.land (Int.lor acc ((((2 : Int) ^ bc.length - 1)) <<< (bc.offset : Int)))
          (sub <<< (bc.offset : Int)))
        bcs vs'
    | _ :: _ => .error .typeError
    | [] => .error .arity

/-- `struct.pack` of one integer element with format character of byte
width `w`: signed formats accept `-2^(8w-1) ≤ v < 2^(8w-1)` and emit
the two's complement bytes; unsigned formats accept `0 ≤ v < 2^(8w)`.
Out-of-range values raise `struct.error`. -/
def packInt (little : Bool) (signed : Bool) (w : Nat) (v : Int) :
    Except PackError Buf :=
  if signed then
    if -(2 ^ (8 * w - 1)) ≤ v ∧ v < 2 ^ (8 * w - 1) then
      .ok (packWord little w (v % (2 ^ (8 * w))).toNat)
    else .error .rangeError
  else
    if 0 ≤ v ∧ v < 2 ^ (8 * w) then .ok (packWord little w v.toNat)
    else .error .rangeError

/-- `tobytes(self)` exactly as written: it walks `self.columns` and, on
the very first column of either branch, evaluates
`self.__getattr__(...)` — an attribute that namedtuple instances do not
have — so it raises `AttributeError` whenever the layout has at least
one field. (With no fields at all, `struct_obj.pack()` on the bare
byte-order format returns the empty byte string.) -/
def tobytes (rc : RowClass) (_row : List Value) : Except PackError Buf :=
  match rc.fields with
  | [] => .ok []
  | _ :: _ => .error .attributeError

/-- `struct.pack` of one non-bitfield column value: an integer is
packed by `packInt` with the column's signedness and width, a float by
its stored 32-bit pattern with `'f'` (narrowing the held double back
to binary32 is exact, because the double came from a binary32 by the
widening modelled in `quiet32`), and any other value (an enum label, a
hook-resolved string, raw gap bytes against an integer format) raises
`struct.error` (`required argument is not an integer`). -/
def packPlain (little : Bool) (t : ColType) (v : Value) : Except PackError Buf :=
  match v with
  | .int i => packInt little t.isSigned t.width i
  | .flt bits =>
    if t = .f32 then .ok (packWord little 4 bits) else .error .typeError
  | _ => .error .typeError

/-- The column loop of `tobytes` with the attribute access
`self.__getattr__(n)` read as `getattr(self, n)` — the only reading
under which the loop body can execute at all (see `tobytes`); every
other aspect follows the source. `getattr(self, name)` returns the
row's value for that field, which is the next unconsumed value in
namedtuple order, so the walk consumes values positionally. Per column:
* a gap entry has no `'name'` key, so `column['name']` raises
  `KeyError` before the attribute is even read;
* a bitfield column takes its parent value, folds the sub-column values
  through `packBits` (lines 104-106), and packs the result with the
  column's unsigned format character;
* every other column packs its single value — `struct.pack` raises
  `struct.error` when the value is not an integer (enum labels,
  hook-resolved strings) or is out of the format's range. -/
def tobytesFieldsG (little : Bool) :
    List FieldSpec → List Value → Except PackError Buf
  | [], [] => .ok []
  | [], _ :: _ => .error .arity
  | _ :: _, [] => .error .arity
  | f :: fs, v :: vs =>
    match f with
    | .gap _ => .error .keyErrorName
    | .real c =>
      if c.type.isBit then
        match v with
        | .int parent =>
          match packBits parent c.columns vs with
          | .error e => .error e
          | .ok (bitdata, vs') =>
            match packInt little false c.type.width bitdata with
            | .error e => .error e
            | .ok chunk =>
              match tobytesFieldsG little fs vs' with
              | .error e => .error e
              | .ok rest => .ok (chunk ++ rest)
        | _ => .error .typeError
      else
        match packPlain little c.type v with
        | .error e => .error e
        | .ok chunk =>
          match tobytesFieldsG little fs vs with
          | .error e => .error e
          | .ok rest => .ok (chunk ++ rest)

/-- `tobytes` with the attribute access repaired to `getattr`
(see `tobytesFieldsG`). -/
def tobytesGetattr (rc : RowClass) (row : List Value) : Except PackError Buf :=
  tobytesFieldsG rc.little rc.fields row

/-! ### `scr.py`: the SCR container and the control-code decoder -/

/-- `struct.unpack` of one little-endian unsigned field of byte width
`k` from `raw[off : off + k]`: `none` models the `struct.error` raised
when the slice is shorter than `k` bytes. -/
def unpackLE (k : Nat) (raw : Buf) (off : Nat) : Option Nat :=
  let s := pyslice raw off (off + k)
  if s.length = k then some (leNat s) else none

/-- Pair up the bytes of a buffer into little-endian UTF-16 code units;
`none` on odd length (`UnicodeDecodeError: truncated data`). -/
def utf16Units : Buf → Option (List Nat)
  | [] => some []
  | [_] => none
  | a :: b :: rest => (utf16Units rest).map ((a + 256 * b) :: ·)

/-- Convert UTF-16 code units to characters: a high surrogate must be
followed by a low surrogate (combined into one supplementary
character); a lone surrogate is a `UnicodeDecodeError` (`none`), as
Python's strict `.decode('utf-16le')` behaves. -/
def unitsChars : List Nat → Option (List Char)
  | [] => some []
  | u :: us =>
    if 0xD800 ≤ u ∧ u < 0xDC00 then
      match us with
      | [] => none
      | v :: us' =>
        if 0xDC00 ≤ v ∧ v < 0xE000 then
          (unitsChars us').map
            (Char.ofNat (0x10000 + (u - 0xD800) * 0x400 + (v - 0xDC00)) :: ·)
        else none
    else if 0xDC00 ≤ u ∧ u < 0xE000 then none
    else (unitsChars us).map (Char.ofNat u :: ·)

/-- Python `bytes.decode('utf-16le')` with strict error handling. -/
def decodeUtf16 (bs : Buf) : Option String :=
  (utf16Units bs).bind fun us => (unitsChars us).map fun cs => String.mk cs

/-- The `SCR.buttons` lookup table. -/
def buttons (n : Nat) : Option String :=
  match n with
  | 0 => some "A"
  | 1 => some "B"
  | 2 => some "X"
  | 3 => some "D-Pad"
  | 4 => some "Circle Pad"
  | 5 => some "L"
  | 6 => some "R"
  | 7 => some "L"
  | 8 => some "R"
  | 9 => some "Y"
  | 10 => some "Y"
  | _ => none

/-- The body of the inner `while` of the choice branch of `getstring`
(see `choiceEnd`), with a structural step counter `k`: advance
`choice_end_pos` by 2 while it is below `bound = pos + 8 + byte_count`
and the two bytes there are not a null pair. -/
def choiceEndAux (raw : Buf) (bound : Nat) : Nat → Nat → Nat
  | 0, cep => cep
  | k + 1, cep =>
    if cep < bound ∧ pyslice raw cep (cep + 2) ≠ [0, 0] then
      choiceEndAux raw bound k (cep + 2)
    else cep

/-- The inner `while` of the choice branch of `getstring`. The loop
runs at most `bound - cep` times (each pass requires `cep < bound` and
adds 2), so running the body with that step allowance is exactly the
loop: if the counter reaches 0, `cep` has passed `bound` and the
condition is false anyway. -/
def choiceEnd (raw : Buf) (bound cep : Nat) : Nat :=
  choiceEndAux raw bound (bound - cep) cep

/-- The `for choice_index in range(choice_count)` loop of the choice
branch: per choice, a 16-bit length at `pos + 4`, the early-null scan
`choiceEnd`, the decoded option text, a `" / "` separator between
options (after every option but the last), and the advance
`pos = pos + 8 + byte_count`. Returns the emitted fragments and the
final position; `.error` models `struct.error` / `UnicodeDecodeError`. -/
def choiceLoop (raw : Buf) : Nat → Nat → Except Unit (List String × Nat)
  | pos, 0 => .ok ([], pos)
  | pos, r + 1 =>
    match unpackLE 2 raw (pos + 4) with
    | none => .error ()
    | some bc =>
      let cep := choiceEnd raw (pos + 8 + bc) (pos + 8)
      match decodeUtf16 (pyslice raw (pos + 8) cep) with
      | none => .error ()
      | some s =>
        match choiceLoop raw (pos + 8 + bc) r with
        | .error e => .error e
        | .ok (outs, fin) =>
          .ok ((s :: if r = 0 then [] else [" / "]) ++ outs, fin)

/-- Result of one pass of the `while True` body of `SCR.getstring`:
the loop `break`s, raises (`struct.error` from a short `unpack` slice
or `UnicodeDecodeError` from `.decode('utf-16le')`), or appends some
fragments and continues at a new position. -/
inductive StepRes
  | halt
  | err
  | cont (outs : List String) (next : Nat)
deriving DecidableEq, Repr

/-- One pass of the `while True` body of `SCR.getstring` at position
`pos`. `accNE` is `len(strings) > 0`, which the choice branch consults
for its opening parenthesis. The branches, in the source's order:
`0xE9` branch/alternate dialogue, `0xF1` pause, `0xF4` furigana
(skipped, nothing emitted), `0xF5` choice set, `0xF6` variables, `0xF7`
text color, `0xF9` buttons, `0xF0` line break, (a second, unreachable
`0xF1` arm — dead code, checked only after the identical first one),
`0xFFFF` filler, any other non-null pair as one UTF-16 unit, and
`break` on a null pair (note `raw[pos:pos+2]` past the buffer end is
empty, which compares unequal to `b'\x00\x00'`, so the scan continues
there, appending empty fragments). -/
def scrStep (raw : Buf) (pos : Nat) (accNE : Bool) : StepRes :=
  let s4 := pyslice raw pos (pos + 4)
  let s2 := pyslice raw pos (pos + 2)
  if s4 = [0xE9, 0xFF, 0xFF, 0xFF] then
    match unpackLE 2 raw (pos + 22) with
    | none => .err
    | some bc =>
      match decodeUtf16 (pyslice raw (pos + 24) (pos + 24 + bc - 2)) with
      | none => .err
      | some sa =>
        let p2 := pos + 24 + bc
        let p3 := if pyslice raw p2 (p2 + 2) = [0xFF, 0xFF] then p2 + 2 else p2
        match unpackLE 2 raw (p3 + 2) with
        | none => .err
        | some bc2 =>
          match decodeUtf16 (pyslice raw (p3 + 4) (p3 + 2 + bc2)) with
          | none => .err
          | some sb => .cont [sa, " / ", sb] (p3 + 4 + bc2)
  else if s4 = [0xF1, 0xFF, 0xFF, 0xFF] then .cont ["\\n"] (pos + 8)
  else if s4 = [0xF4, 0xFF, 0xFF, 0xFF] then
    match unpackLE 2 raw (pos + 10) with
    | none => .err
    | some bc => .cont [] (pos + 12 + bc)
  else if s4 = [0xF5, 0xFF, 0xFF, 0xFF] then
    match unpackLE 4 raw (pos + 12) with
    | none => .err
    | some cc =>
      match choiceLoop raw (pos + 16 + 4 * cc) cc with
      | .error _ => .err
      | .ok (outs, fin) =>
        .cont ((if accNE then " (" else "(") :: (outs ++ [")"])) fin
  else if s4 = [0xF6, 0xFF, 0xFF, 0xFF] then
    match unpackLE 4 raw (pos + 4), unpackLE 4 raw (pos + 8) with
    | some a, some b =>
      .cont ["(" ++ toString a ++ ", " ++ toString b ++ ")"] (pos + 12)
    | _, _ => .err
  else if s4 = [0xF7, 0xFF, 0xFF, 0xFF] then .cont [] (pos + 12)
  else if s4 = [0xF9, 0xFF, 0xFF, 0xFF] then
    match unpackLE 4 raw (pos + 8) with
    | none => .err
    | some b => .cont [(buttons b).getD "?"] (pos + 12)
  else if s4 = [0xF0, 0xFF, 0xFF, 0xFF] then .cont ["\\n"] (pos + 8)
  else if s2 = [0xFF, 0xFF] then .cont [] (pos + 2)
  else if s2 ≠ [0, 0] then
    match decodeUtf16 s2 with
    | none => .err
    | some s => .cont [s] (pos + 2)
  else .halt

/-- `SCR.getstring(offset)` with explicit fuel: the `while True` loop
of the source has no built-in bound (see `scrStep` for the body), so
the embedding counts iterations; `none` means the loop was still
running after `fuel` passes, `some (.error ())` that an iteration
raised, and `some (.ok s)` that the loop hit `break` and returned
`''.join(strings)`. `acc` is the `strings` list accumulated so far
(the call site passes `[]`). -/
def getstringF (raw : Buf) : Nat → Nat → List String → Option (Except Unit String)
  | 0, _, _ => none
  | fuel + 1, pos, acc =>
    match scrStep raw pos (!acc.isEmpty) with
    | .halt => some (.ok (String.join acc))
    | .err => some (.error ())
    | .cont outs next => getstringF raw fuel next (acc ++ outs)

/-- The scan of `SCR.getstring` from position `pos` with accumulated
fragments `acc` eventually reaches the `break`: either this iteration
breaks, or it continues and the scan from the new state reaches it. -/
inductive Halts (raw : Buf) : Nat → List String → Prop
  | halt {pos acc} : scrStep raw pos (!acc.isEmpty) = .halt → Halts raw pos acc
  | cont {pos acc outs next} : scrStep raw pos (!acc.isEmpty) = .cont outs next →
      Halts raw next (acc ++ outs) → Halts raw pos acc

/-- The parsed `SCR.__init__` state: the raw buffer and the three
32-bit table-descriptor fields. -/
structure ScrState where
  raw : Buf
  row_count : Nat
  row_length : Nat
  table_offset : Nat
deriving DecidableEq, Repr

/-- `SCR.__init__(raw)`: read the 32-bit `table_info_offset` at `0x14`,
then `row_count`, `row_length`, `table_offset` as `'<3I'` from the
12-byte slice there. `none` models the `struct.error` raised when
either slice is short. No other validation is performed. -/
def scrInit (raw : Buf) : Option ScrState :=
  match unpackLE 4 raw 0x14 with
  | none => none
  | some tio =>
    let s := pyslice raw tio (tio + 12)
    if s.length = 12 then
      some ⟨raw, leNat (s.take 4), leNat ((s.drop 4).take 4), leNat (s.drop 8)⟩
    else none

/-- The `row_index`-th window yielded by `SCR.iterrowbytes`:
`mv[offset : offset + row_length]` at
`offset = table_offset + row_index * row_length` (a memoryview slice,
which clamps to the buffer just as a bytes slice does). -/
def iterrowbytes (st : ScrState) (i : Nat) : Buf :=
  pyslice st.raw (st.table_offset + i * st.row_length)
    (st.table_offset + i * st.row_length + st.row_length)

/-- Errors of `scr.load`: `UnsupportedSCRError` when the magic matches
at neither position, and the `struct.error` propagated out of
`SCR.__init__` when the header slices are short. -/
inductive LoadError
  | unsupported
  | header
deriving DecidableEq, Repr

/-- The 4-byte SCR magic `b'\x13\x80\x03\x1D'`. -/
def magicSCR : Buf := [0x13, 0x80, 0x03, 0x1D]

/-- `scr.load(path)` on the file's bytes: when the first 4 bytes are
the magic, parse the whole buffer; otherwise, when the 4 bytes at
`0x10` are the magic, parse the buffer from `0x10` on (the first 16
bytes discarded); otherwise raise `UnsupportedSCRError`. Success
additionally requires `SCR.__init__` itself not to raise. -/
def load (raw : Buf) : Except LoadError ScrState :=
  if pyslice raw 0 4 = magicSCR then
    match scrInit raw with
    | some st => .ok st
    | none => .error .header
  else if pyslice raw 0x10 0x14 = magicSCR then
    match scrInit (raw.drop 0x10) with
    | some st => .ok st
    | none => .error .header
  else .error .unsupported

/-- The hypothesis of the partition property (claim C8): walked from
cursor `g`, the descriptors have ascending, non-overlapping offsets
(each column starts at or after the previous column's end) and stay
within the declared row length `L`. -/
def okColsB (L : Nat) : Nat → List ColumnInfo → Bool
  | _, [] => true
  | g, c :: rest =>
    decide (g ≤ c.offset) && decide (c.offset + c.type.width ≤ L) &&
      okColsB L (c.offset + c.type.width) rest

/-- A compiled field that is a declared column of a plain kind: not a
bitfield, not an enum, and not a synthesized gap (the kinds for which
claim C1's byte-level round trip can hold at all, see
`C1_counterexample`). -/
def plainField : FieldSpec → Bool
  | .gap _ => false
  | .real c => !c.type.isBit && !c.type.isEnum

/-- Walking the fields over the row's bytes, every chunk read by an
`f32` column is quiet-stable — not a signaling NaN pattern, so the
widening conversion of `struct.unpack('f')` leaves it unchanged (see
`quiet32`). On such rows the float round trip is byte-exact; a
signaling NaN chunk re-encodes with its quiet bit set instead (see
`C1_counterexample`). -/
def quietFloats (little : Bool) : List FieldSpec → Buf → Bool
  | [], _ => true
  | f :: fs, bs =>
    (match f with
     | .real c =>
       if c.type = .f32 then
         decide (quiet32 (unpackWord little (bs.take f.width))
           = unpackWord little (bs.take f.width))
       else true
     | .gap _ => true) && quietFloats little fs (bs.drop f.width)

/-! ### Supporting lemmas -/

theorem realCols_gap (w : Nat) (fs : List FieldSpec) :
    realCols (.gap w :: fs) = realCols fs := by
  simp [realCols]

theorem realCols_real (c : ColumnInfo) (fs : List FieldSpec) :
    realCols (.real c :: fs) = c :: realCols fs := by
  simp [realCols]

theorem realCols_newrowclassAux (cols : List ColumnInfo) :
    ∀ g, realCols (newrowclassAux g cols).2.1 = cols := by
  induction cols with
  | nil => intro g; rfl
  | cons c rest ih =>
    intro g
    by_cases h : c.offset > g <;>
      simp [newrowclassAux, h, realCols_gap, realCols_real, ih]

theorem widthSum_nil : widthSum [] = 0 := rfl

theorem widthSum_cons (f : FieldSpec) (fs : List FieldSpec) :
    widthSum (f :: fs) = f.width + widthSum fs := by
  simp [widthSum]

theorem widthSum_append (xs ys : List FieldSpec) :
    widthSum (xs ++ ys) = widthSum xs + widthSum ys := by
  simp [widthSum]

theorem fieldStarts_append (xs ys : List FieldSpec) :
    ∀ s, fieldStarts s (xs ++ ys) =
      fieldStarts s xs ++ fieldStarts (s + widthSum xs) ys := by
  induction xs with
  | nil => intro s; simp [fieldStarts, widthSum_nil]
  | cons f fs ih =>
    intro s
    simp [fieldStarts, ih, widthSum_cons]
    ring_nf

theorem ColType.width_pos (t : ColType) : 1 ≤ t.width := by
  cases t <;> decide

theorem FieldSpec.width_gap (w : Nat) : (FieldSpec.gap w).width = w := rfl

theorem FieldSpec.width_real (c : ColumnInfo) :
    (FieldSpec.real c).width = c.type.width := rfl

theorem newrowclassAux_widthSum (L : Nat) (cols : List ColumnInfo) :
    ∀ g, okColsB L g cols = true → g ≤ L →
      g + widthSum (newrowclassAux g cols).2.1 = (newrowclassAux g cols).2.2 ∧
      (newrowclassAux g cols).2.2 ≤ L := by
  induction cols with
  | nil => intro g _ hg; simpa [newrowclassAux, widthSum_nil] using hg
  | cons c rest ih =>
    intro g h hg
    have h1 : g ≤ c.offset := by
      simp [okColsB, Bool.and_eq_true] at h
      exact h.1.1
    have h2 : c.offset + c.type.width ≤ L := by
      simp [okColsB, Bool.and_eq_true] at h
      exact h.1.2
    have h3 : okColsB L (c.offset + c.type.width) rest = true := by
      simp [okColsB, Bool.and_eq_true] at h
      exact h.2
    obtain ⟨ihw, ihb⟩ := ih (c.offset + c.type.width) h3 h2
    by_cases hgap : c.offset > g <;>
      simp [newrowclassAux, hgap, widthSum_append, widthSum_cons,
        FieldSpec.width_gap, FieldSpec.width_real] <;>
      constructor <;> omega

theorem newrowclassAux_starts (L : Nat) (cols : List ColumnInfo) :
    ∀ g, okColsB L g cols = true →
      ∀ p ∈ fieldStarts g (newrowclassAux g cols).2.1,
        ∀ c, p.2 = .real c → p.1 = c.offset := by
  induction cols with
  | nil => intro g _ p hp; simp [newrowclassAux, fieldStarts] at hp
  | cons c rest ih =>
    intro g h p hp c' hc'
    have h1 : g ≤ c.offset := by
      simp [okColsB, Bool.and_eq_true] at h
      exact h.1.1
    have h3 : okColsB L (c.offset + c.type.width) rest = true := by
      simp [okColsB, Bool.and_eq_true] at h
      exact h.2
    by_cases hgap : c.offset > g
    · simp [newrowclassAux, hgap, fieldStarts,
        FieldSpec.width_gap, FieldSpec.width_real] at hp
      rcases hp with hp | hp | hp
      · subst hp; simp at hc'
      · subst hp
        cases hc'
        simp
        omega
      · have hstep : g + (c.offset - g) + c.type.width = c.offset + c.type.width := by
          omega
        rw [hstep] at hp
        exact ih (c.offset + c.type.width) h3 p hp c' hc'
    · have heq : c.offset = g := by omega
      simp [newrowclassAux, hgap, fieldStarts,
        FieldSpec.width_gap, FieldSpec.width_real] at hp
      rcases hp with hp | hp
      · subst hp
        cases hc'
        simp [heq]
      · have hstep : g + c.type.width = c.offset + c.type.width := by omega
        rw [hstep] at hp
        exact ih (c.offset + c.type.width) h3 p hp c' hc'

/-! ### Claims -/

/-- Claim C3, counterexample. The claim says overlapping columns, a
column past the declared row length, and bit sub-fields exceeding the
parent's bit width each make the schema compiler fail with a
SchemaError. In fact `newrowclass` performs no validation whatsoever
(the source defines no SchemaError and raises nothing): it produces a
layout for all three inputs. Here: (1) `b` at offset 1 overlaps `a`
(a `u16` at offset 0), and the compiled struct silently spans 3 bytes
of a 2-byte row; (2) a `u32` at offset 0 of a 2-byte row extends past
the row end, and the compiled struct spans 4 bytes; (3) a `bit8`
sub-field with bit offset 4 and bit length 8 exceeds the parent's 8
bits, and is compiled unchanged. -/
theorem C3_counterexample :
    (newrowclass none 2 [⟨"a", .u16, 0, [], []⟩, ⟨"b", .u8, 1, [], []⟩]).fields
        = [.real ⟨"a", .u16, 0, [], []⟩, .real ⟨"b", .u8, 1, [], []⟩] ∧
      widthSum (newrowclass none 2
        [⟨"a", .u16, 0, [], []⟩, ⟨"b", .u8, 1, [], []⟩]).fields = 3 ∧
    (newrowclass none 2 [⟨"a", .u32, 0, [], []⟩]).fields
        = [.real ⟨"a", .u32, 0, [], []⟩] ∧
      widthSum (newrowclass none 2 [⟨"a", .u32, 0, [], []⟩]).fields = 4 ∧
    (newrowclass none 1 [⟨"f", .bit8, 0, [⟨"x", 4, 8⟩], []⟩]).fields
        = [.real ⟨"f", .bit8, 0, [⟨"x", 4, 8⟩], []⟩] :=
  ⟨rfl, rfl, rfl, rfl, rfl⟩

/-- Claim C3, amended: `newrowclass` performs no schema validation at
all — for every descriptor list (overlapping, out-of-bounds, or with
oversized bit sub-fields included) it produces a layout whose real
columns are exactly the declared columns, in order; no input is
rejected and no SchemaError exists in the code. -/
theorem C3_no_validation (e : Option Endian) (L : Nat) (cols : List ColumnInfo) :
    realCols (newrowclass e L cols).fields = cols := by
  have h := realCols_newrowclassAux cols 0
  by_cases hfin : (newrowclassAux 0 cols).2.2 < L <;>
    simp [newrowclass, hfin, realCols, List.filterMap_append] <;>
    simpa [realCols] using h

/-- Claim C8: for descriptor lists with ascending, non-overlapping,
in-bounds columns (`okColsB`), the compiled fields of `newrowclass`
partition `[0, row_length)`: laid end to end from offset 0 they sum
exactly to the row length (each gap synthesized before a column whose
offset exceeds the cursor, plus the trailing gap, exactly fills the
unclaimed ranges), and every declared column sits at precisely its
declared byte offset. -/
theorem C8_partition (e : Option Endian) (L : Nat) (cols : List ColumnInfo)
    (h : okColsB L 0 cols = true) :
    widthSum (newrowclass e L cols).fields = L ∧
    ∀ p ∈ fieldStarts 0 (newrowclass e L cols).fields,
      ∀ c, p.2 = .real c → p.1 = c.offset := by
  obtain ⟨hw, hb⟩ := newrowclassAux_widthSum L cols 0 h (Nat.zero_le L)
  constructor
  · by_cases hfin : (newrowclassAux 0 cols).2.2 < L <;>
      simp [newrowclass, hfin, widthSum_append, widthSum_cons, widthSum_nil,
        FieldSpec.width_gap] <;>
      omega
  · intro p hp c hc
    have hstarts := newrowclassAux_starts L cols 0 h
    by_cases hfin : (newrowclassAux 0 cols).2.2 < L <;>
      simp [newrowclass, hfin, fieldStarts_append, fieldStarts] at hp
    · rcases hp with hp | hp
      · exact hstarts p hp c hc
      · subst hp; simp at hc
    · exact hstarts p hp c hc

/-- Witness for C8 at a concrete schema: a `u8` at offset 1 and a
`u16` at offset 4 in an 8-byte row (gaps at `[0,1)`, `[2,4)`, `[6,8)`). -/
theorem C8_partition_witness :
    okColsB 8 0 [⟨"a", .u8, 1, [], []⟩, ⟨"b", .u16, 4, [], []⟩] = true ∧
    (widthSum (newrowclass none 8
        [⟨"a", .u8, 1, [], []⟩, ⟨"b", .u16, 4, [], []⟩]).fields = 8 ∧
      ∀ p ∈ fieldStarts 0 (newrowclass none 8
          [⟨"a", .u8, 1, [], []⟩, ⟨"b", .u16, 4, [], []⟩]).fields,
        ∀ c, p.2 = .real c → p.1 = c.offset) :=
  ⟨by decide, C8_partition none 8 _ (by decide)⟩

/-- Claim C9: a table description without an `'endianess'` key compiles
to a struct format string beginning with `'<'` (the `except KeyError`
default), and the layout decodes multi-byte fields little-endian. -/
theorem C9_default_little_endian (L : Nat) (cols : List ColumnInfo) :
    (newrowclass none L cols).structstr.data.head? = some '<' ∧
    (newrowclass none L cols).little = true :=
  ⟨rfl, rfl⟩

theorem decodeField_hook_agree (little : Bool) (h : Nat → String)
    (f : FieldSpec) (chunk : Buf) :
    (∃ e, decodeField little (some h) f chunk = .error e ∧
      decodeField little none f chunk = .error e) ∨
    (∃ vs vs', decodeField little (some h) f chunk = .ok vs ∧
      decodeField little none f chunk = .ok vs') := by
  cases f with
  | gap w => right; exact ⟨_, _, rfl, rfl⟩
  | real c =>
    by_cases hs : c.type = .str
    · right
      exact ⟨[.str (h (unpackWord little chunk))], [.int (unpackWord little chunk)],
        by simp [decodeField, hs], by simp [decodeField, hs]⟩
    · have heq : decodeField little (some h) (.real c) chunk
          = decodeField little none (.real c) chunk := by
        simp [decodeField, hs]
      rcases hv : decodeField little none (.real c) chunk with e | vs
      · exact Or.inl ⟨e, heq.trans hv, rfl⟩
      · exact Or.inr ⟨vs, vs, heq.trans hv, rfl⟩

theorem feedFields_hook_error (little : Bool) (h : Nat → String) :
    ∀ (fields : List FieldSpec) (bs : Buf) (e : FeedError),
      feedFields little (some h) fields bs = .error e ↔
      feedFields little none fields bs = .error e := by
  intro fields
  induction fields with
  | nil => intro bs e; simp [feedFields]
  | cons f fs ih =>
    intro bs e
    rcases decodeField_hook_agree little h f (bs.take f.width)
      with ⟨e', h1, h2⟩ | ⟨vs, vs', h1, h2⟩
    · simp [feedFields, h1, h2]
    · rcases ht : feedFields little (some h) fs (bs.drop f.width) with e2 | rest
      · have ht2 := (ih (bs.drop f.width) e2).mp ht
        simp [feedFields, h1, h2, ht, ht2]
      · rcases ht2 : feedFields little none fs (bs.drop f.width) with e2 | rest2
        · have := (ih (bs.drop f.width) e2).mpr ht2
          rw [this] at ht
          cases ht
        · simp [feedFields, h1, h2, ht, ht2]

/-- Claim C7, counterexample. The claim says the handling of a decoded
enum value with no matching label is a caller-selectable policy (fail,
or pass the raw integer through as a fallback label). In fact the
lookup `info['enum'][format(element)]` raises `KeyError`
unconditionally: `feed`'s only optional argument, `get_string_hook`,
leaves the failure untouched, and no pass-through option exists
anywhere in the code. Here the layout has one `enum8` column whose
table maps only `0`, and the byte `5` fails identically with or
without a hook. -/
theorem C7_counterexample :
    feed (newrowclass none 1 [⟨"e", .enum8, 0, [], [(0, "Zero")]⟩]) [5] none
        = .error (.keyError 5) ∧
    feed (newrowclass none 1 [⟨"e", .enum8, 0, [], [(0, "Zero")]⟩]) [5]
        (some fun _ => "fallback") = .error (.keyError 5) :=
  ⟨rfl, rfl⟩

/-- Claim C7, amended: decoding an enum-kind column whose raw value has
no label in the column's enum table always fails, with the `KeyError`
carrying that raw value; and the failure is not caller-selectable —
supplying or omitting `feed`'s only optional argument
(`get_string_hook`) never changes whether decoding fails, nor the
error it fails with. -/
theorem C7_enum_failure_not_selectable :
    (∀ (little : Bool) (hook : Option (Nat → String)) (c : ColumnInfo)
        (chunk : Buf),
      c.type.isEnum = true →
      lookupEnum c.enum (unpackWord little chunk) = none →
      decodeField little hook (.real c) chunk
        = .error (.keyError (unpackWord little chunk))) ∧
    (∀ (rc : RowClass) (bs : Buf) (h : Nat → String) (e : FeedError),
      feed rc bs (some h) = .error e ↔ feed rc bs none = .error e) := by
  constructor
  · intro little hook c chunk he hl
    obtain ⟨name, ty, off, bcols, etab⟩ := c
    cases ty <;> simp [ColType.isEnum] at he <;>
      simp [decodeField, ColType.isBit, ColType.isEnum] at hl ⊢ <;>
      simp [hl]
  · intro rc bs h e
    by_cases hl : bs.length = widthSum rc.fields <;>
      simp [feed, hl, feedFields_hook_error]

/-- Witness for C7 (amended) at a concrete enum column: an `enum8`
column whose table maps only `0`, decoded from the byte `5`, with and
without a hook. -/
theorem C7_enum_failure_witness :
    ((ColumnInfo.mk "e" .enum8 0 [] [(0, "Zero")]).type.isEnum = true ∧
      lookupEnum [(0, "Zero")] (unpackWord true [5]) = none) ∧
    decodeField true none (.real ⟨"e", .enum8, 0, [], [(0, "Zero")]⟩) [5]
        = .error (.keyError 5) ∧
    decodeField true (some fun _ => "fallback")
        (.real ⟨"e", .enum8, 0, [], [(0, "Zero")]⟩) [5]
        = .error (.keyError 5) :=
  ⟨⟨rfl, rfl⟩,
    C7_enum_failure_not_selectable.1 true none _ [5] rfl rfl,
    C7_enum_failure_not_selectable.1 true (some fun _ => "fallback") _ [5] rfl rfl⟩

/-- Claim C10: a `'str'` column decoded without a string-resolution
hook (`get_string_hook=None`) falls through to the plain branch of the
`feed` loop and stores the raw unpacked 32-bit integer; with a hook it
stores `hook(element)` instead — resolution happens exactly when a
hook is given. -/
theorem C10_str_without_hook (little : Bool) (c : ColumnInfo) (chunk : Buf)
    (h : c.type = .str) :
    decodeField little none (.real c) chunk
        = .ok [.int (unpackWord little chunk)] ∧
    ∀ hk : Nat → String, decodeField little (some hk) (.real c) chunk
        = .ok [.str (hk (unpackWord little chunk))] := by
  refine ⟨?_, fun hk => ?_⟩ <;> simp [decodeField, h]

/-- Witness for C10 at a concrete `'str'` column and the 4-byte chunk
`01 00 00 00`. -/
theorem C10_str_without_hook_witness :
    (ColumnInfo.mk "d" .str 0 [] []).type = .str ∧
    decodeField true none (.real ⟨"d", .str, 0, [], []⟩) [1, 0, 0, 0]
        = .ok [.int 1] ∧
    decodeField true (some fun n => toString n) (.real ⟨"d", .str, 0, [], []⟩)
        [1, 0, 0, 0] = .ok [.str "1"] :=
  ⟨rfl, (C10_str_without_hook true _ _ rfl).1,
    (C10_str_without_hook true _ _ rfl).2 (fun n => toString n)⟩

theorem pyslice_length (l : Buf) (a b : Nat) :
    (pyslice l a b).length = min (b - a) (l.length - a) := by
  simp [pyslice]

theorem scrInit_raw (raw : Buf) (st : ScrState) (h : scrInit raw = some st) :
    st.raw = raw := by
  unfold scrInit at h
  cases hu : unpackLE 4 raw 0x14 with
  | none => rw [hu] at h; cases h
  | some tio =>
    rw [hu] at h
    by_cases hl : (pyslice raw tio (tio + 12)).length = 12
    · simp only [hl, if_true] at h
      cases h
      rfl
    · simp only [hl, if_false] at h
      cases h

/-- Claim C5, counterexample. The claim says `SCR.__init__`
bounds-checks `table_offset + row_count*row_length` against the buffer
length, so that every `iterrowbytes` window is exactly `row_length`
bytes. In fact `__init__` performs no such check: this 36-byte buffer
parses successfully with `row_count = 1`, `row_length = 100`,
`table_offset = 36` (so `36 + 1*100` far exceeds the length), no
`FormatError` is raised anywhere, and the single window —
`mv[36:136]`, clamped by Python slicing — is empty instead of 100
bytes long. -/
theorem C5_counterexample :
    scrInit (List.replicate 20 0 ++
        ([0x18, 0, 0, 0] ++ ([1, 0, 0, 0] ++ ([100, 0, 0, 0] ++ [0x24, 0, 0, 0]))))
      = some ⟨List.replicate 20 0 ++
        ([0x18, 0, 0, 0] ++ ([1, 0, 0, 0] ++ ([100, 0, 0, 0] ++ [0x24, 0, 0, 0]))),
        1, 100, 36⟩ ∧
    (iterrowbytes ⟨List.replicate 20 0 ++
        ([0x18, 0, 0, 0] ++ ([1, 0, 0, 0] ++ ([100, 0, 0, 0] ++ [0x24, 0, 0, 0]))),
        1, 100, 36⟩ 0).length = 0 :=
  ⟨rfl, rfl⟩

/-- Claim C5, amended: `SCR.__init__` performs no bounds check at all
(see `C5_counterexample`); the windows yielded by `iterrowbytes` are
Python slices, which clamp to the buffer, so each window is exactly
`row_length` bytes — lying entirely within the buffer — exactly when
the bound `table_offset + row_count*row_length ≤ len(raw)` happens to
hold for the parsed header fields. -/
theorem C5_window_length (raw : Buf) (st : ScrState) (i : Nat)
    (hinit : scrInit raw = some st)
    (hbound : st.table_offset + st.row_count * st.row_length ≤ raw.length)
    (hi : i < st.row_count) :
    (iterrowbytes st i).length = st.row_length := by
  have hraw := scrInit_raw raw st hinit
  have hmul : i * st.row_length + st.row_length ≤ st.row_count * st.row_length := by
    have := Nat.mul_le_mul_right st.row_length hi
    calc i * st.row_length + st.row_length
        = (i + 1) * st.row_length := by ring
      _ ≤ st.row_count * st.row_length := Nat.mul_le_mul_right st.row_length hi
  simp only [iterrowbytes, pyslice_length, hraw]
  omega

/-- Witness for C5 (amended) at a concrete in-bounds container: a
38-byte buffer with `row_count = 1`, `row_length = 2`,
`table_offset = 36` and two data bytes at the end. -/
theorem C5_window_length_witness :
    scrInit (List.replicate 20 0 ++
        ([0x18, 0, 0, 0] ++ ([1, 0, 0, 0] ++
          ([2, 0, 0, 0] ++ ([0x24, 0, 0, 0] ++ [0xAA, 0xBB])))))
      = some ⟨List.replicate 20 0 ++
        ([0x18, 0, 0, 0] ++ ([1, 0, 0, 0] ++
          ([2, 0, 0, 0] ++ ([0x24, 0, 0, 0] ++ [0xAA, 0xBB])))), 1, 2, 36⟩ ∧
    36 + 1 * 2 ≤ 38 ∧ 0 < 1 ∧
    (iterrowbytes ⟨List.replicate 20 0 ++
        ([0x18, 0, 0, 0] ++ ([1, 0, 0, 0] ++
          ([2, 0, 0, 0] ++ ([0x24, 0, 0, 0] ++ [0xAA, 0xBB])))), 1, 2, 36⟩ 0).length
      = 2 := by
  refine ⟨rfl, by decide, by decide, ?_⟩
  exact C5_window_length
    (List.replicate 20 0 ++
      ([0x18, 0, 0, 0] ++ ([1, 0, 0, 0] ++
        ([2, 0, 0, 0] ++ ([0x24, 0, 0, 0] ++ [0xAA, 0xBB])))))
    ⟨List.replicate 20 0 ++
      ([0x18, 0, 0, 0] ++ ([1, 0, 0, 0] ++
        ([2, 0, 0, 0] ++ ([0x24, 0, 0, 0] ++ [0xAA, 0xBB])))), 1, 2, 36⟩
    0 (by decide) (by decide) (by decide)

/-- Claim C6, counterexample. The claim says loading succeeds whenever
the 4-byte magic `13 80 03 1D` appears at byte 0. For the 4-byte file
consisting of exactly the magic, the magic check at byte 0 does match,
yet `load` does not succeed: `SCR.__init__` raises `struct.error`
reading the header slice `raw[0x14:0x18]`, which is empty. -/
theorem C6_counterexample :
    pyslice [0x13, 0x80, 0x03, 0x1D] 0 4 = magicSCR ∧
    load [0x13, 0x80, 0x03, 0x1D] = .error .header :=
  ⟨rfl, rfl⟩

/-- Claim C6, amended: `load` dispatches on the magic exactly as
claimed — magic at byte 0 keeps the full buffer, otherwise magic at
byte 0x10 discards the first 16 bytes, otherwise
`UnsupportedSCRError` — but in the two magic cases it only proceeds to
header parsing (`SCR.__init__`), which may itself fail with
`struct.error`; success requires that parse to succeed too. Stated as
a characterization: `load raw` succeeds with state `st` iff the magic
matched at 0 (and the full buffer parsed to `st`) or matched only at
0x10 (and the buffer minus 16 bytes parsed to `st`); and `load raw` is
`UnsupportedSCRError` iff the magic matched at neither position. -/
theorem C6_load_dispatch (raw : Buf) (st : ScrState) :
    (load raw = .ok st ↔
      ((pyslice raw 0 4 = magicSCR ∧ scrInit raw = some st) ∨
        (pyslice raw 0 4 ≠ magicSCR ∧ pyslice raw 0x10 0x14 = magicSCR ∧
          scrInit (raw.drop 0x10) = some st))) ∧
    (load raw = .error .unsupported ↔
      (pyslice raw 0 4 ≠ magicSCR ∧ pyslice raw 0x10 0x14 ≠ magicSCR)) := by
  constructor
  · by_cases h0 : pyslice raw 0 4 = magicSCR
    · cases hs : scrInit raw <;> simp [load, h0, hs]
    · by_cases h16 : pyslice raw 0x10 0x14 = magicSCR
      · cases hs : scrInit (raw.drop 0x10) <;> simp [load, h0, h16, hs]
      · simp [load, h0, h16]
  · by_cases h0 : pyslice raw 0 4 = magicSCR
    · cases hs : scrInit raw <;> simp [load, h0, hs]
    · by_cases h16 : pyslice raw 0x10 0x14 = magicSCR
      · cases hs : scrInit (raw.drop 0x10) <;> simp [load, h0, h16, hs]
      · simp [load, h0, h16]

theorem pyslice_nil (a b : Nat) : pyslice [] a b = [] := by
  simp [pyslice]

/-- On the empty buffer every slice is empty, so every pass of the
`getstring` loop takes the final `elif` (`b'' != b'\x00\x00'`),
appends the empty decode of `b''`, and advances by 2 — forever. -/
theorem scrStep_nil (pos : Nat) (b : Bool) :
    scrStep [] pos b = .cont [String.mk []] (pos + 2) := by
  simp [scrStep, pyslice_nil, decodeUtf16, utf16Units, unitsChars]

/-- Claim C4, counterexample. The claim says `SCR.getstring` terminates
and returns a string on every buffer and offset, including buffers
that end without a terminating null unit. On the 4-byte buffer
consisting of the branch sentinel `E9 FF FF FF` alone, the branch arm
runs `unpack('<H', raw[22:24])` on an empty slice and raises
`struct.error` — the call does not return a string. -/
theorem C4_counterexample :
    getstringF [0xE9, 0xFF, 0xFF, 0xFF] 5 0 [] = some (.error ()) := rfl

/-- Claim C4, amended: `getstring` terminates with a string exactly
when the strictly-advancing scan reaches a null code unit outside the
consumed sentinel spans, with every sentinel operand read in bounds
(the `Halts` predicate, built from the loop body `scrStep`); it is not
total — a sentinel whose operands run past the buffer end raises
`struct.error` (see `C4_counterexample`), and a buffer that simply
ends without a null unit scans past the end forever: on the empty
buffer the loop never halts. -/
theorem C4_getstring_terminates :
    (∀ (raw : Buf) (pos : Nat) (acc : List String), Halts raw pos acc →
      ∃ fuel s, getstringF raw fuel pos acc = some (.ok s)) ∧
    ¬ Halts [] 0 [] := by
  constructor
  · intro raw pos acc h
    induction h with
    | @halt pos' acc' hstep =>
      exact ⟨1, String.join acc', by simp [getstringF, hstep]⟩
    | cont hstep _ ih =>
      obtain ⟨f, s, hf⟩ := ih
      exact ⟨f + 1, s, by simp [getstringF, hstep, hf]⟩
  · have haux : ∀ (p : Nat) (a : List String), ¬ Halts [] p a := by
      intro p a h
      induction h with
      | halt hstep => rw [scrStep_nil] at hstep; cases hstep
      | cont hstep _ ih => exact ih
    exact haux 0 []

/-- Witness for C4 (amended) on the buffer `41 00 00 00`: the scan
reads the UTF-16 unit `'A'` and halts at the null pair, so `getstring`
returns a string. -/
theorem C4_getstring_terminates_witness :
    Halts [0x41, 0, 0, 0] 0 [] ∧
    ∃ fuel s, getstringF [0x41, 0, 0, 0] fuel 0 [] = some (.ok s) := by
  have h1 : scrStep [0x41, 0, 0, 0] 0 (!(List.isEmpty ([] : List String)))
      = .cont ["A"] 2 := by decide
  have h2 : scrStep [0x41, 0, 0, 0] 2 (!(List.isEmpty (([] : List String) ++ ["A"])))
      = .halt := by decide
  have h : Halts [0x41, 0, 0, 0] 0 [] := .cont h1 (.halt h2)
  exact ⟨h, C4_getstring_terminates.1 _ _ _ h⟩

theorem pow256 (l : Nat) : (2:Nat) ^ (8 * l) = 256 ^ l := by
  rw [pow_mul]; norm_num

theorem unpackWord_lt (little : Bool) (bs : Buf) (h : ∀ b ∈ bs, b < 256) :
    unpackWord little bs < 2 ^ (8 * bs.length) := by
  rw [pow256]
  cases little
  · have := leNat_lt bs.reverse fun b hb => h b (List.mem_reverse.mp hb)
    simpa [unpackWord, List.length_reverse] using this
  · simpa [unpackWord] using leNat_lt bs h

theorem packWord_unpackWord (little : Bool) (bs : Buf)
    (h : ∀ b ∈ bs, b < 256) :
    packWord little bs.length (unpackWord little bs) = bs := by
  cases little
  · have hrev : leBytes bs.reverse.length (leNat bs.reverse) = bs.reverse :=
      leBytes_leNat bs.reverse fun b hb => h b (List.mem_reverse.mp hb)
    rw [List.length_reverse] at hrev
    simp [packWord, unpackWord, hrev]
  · simpa [packWord, unpackWord] using leBytes_leNat bs h

theorem packInt_unsigned_round (little : Bool) (chunk : Buf)
    (h : ∀ b ∈ chunk, b < 256) :
    packInt little false chunk.length ((unpackWord little chunk : Nat) : Int)
      = .ok chunk := by
  have hlt : unpackWord little chunk < 2 ^ (8 * chunk.length) :=
    unpackWord_lt little chunk h
  have h0 : (0:Int) ≤ ((unpackWord little chunk : Nat) : Int) :=
    Int.natCast_nonneg _
  have h1 : ((unpackWord little chunk : Nat) : Int) < 2 ^ (8 * chunk.length) := by
    exact_mod_cast hlt
  have htn : ((unpackWord little chunk : Nat) : Int).toNat
      = unpackWord little chunk := by omega
  simp only [packInt, Bool.false_eq_true, if_false, if_pos (And.intro h0 h1), htn]
  rw [packWord_unpackWord little chunk h]

theorem packInt_signed_round (little : Bool) (chunk : Buf)
    (hw : 1 ≤ chunk.length) (h : ∀ b ∈ chunk, b < 256) :
    packInt little true chunk.length
      (toSigned chunk.length (unpackWord little chunk)) = .ok chunk := by
  have hlt : unpackWord little chunk < 2 ^ (8 * chunk.length) :=
    unpackWord_lt little chunk h
  have hsplit : (2:Nat) ^ (8 * chunk.length)
      = 2 * 2 ^ (8 * chunk.length - 1) := by
    have h8 : 8 * chunk.length - 1 + 1 = 8 * chunk.length := by omega
    calc (2:Nat) ^ (8 * chunk.length)
        = 2 ^ (8 * chunk.length - 1 + 1) := by rw [h8]
      _ = 2 ^ (8 * chunk.length - 1) * 2 := pow_succ 2 _
      _ = 2 * 2 ^ (8 * chunk.length - 1) := by ring
  have hltZ : ((unpackWord little chunk : Nat) : Int)
      < 2 ^ (8 * chunk.length) := by exact_mod_cast hlt
  have hsplitZ : (2:Int) ^ (8 * chunk.length)
      = 2 * 2 ^ (8 * chunk.length - 1) := by exact_mod_cast hsplit
  have hposZ : (0:Int) < 2 ^ (8 * chunk.length - 1) := by positivity
  have hn0 : (0:Int) ≤ ((unpackWord little chunk : Nat) : Int) :=
    Int.natCast_nonneg _
  by_cases hc : unpackWord little chunk < 2 ^ (8 * chunk.length - 1)
  · have hcZ : ((unpackWord little chunk : Nat) : Int)
        < 2 ^ (8 * chunk.length - 1) := by exact_mod_cast hc
    have hcond : -((2:Int) ^ (8 * chunk.length - 1))
        ≤ ((unpackWord little chunk : Nat) : Int) ∧
        ((unpackWord little chunk : Nat) : Int)
          < 2 ^ (8 * chunk.length - 1) := ⟨by omega, hcZ⟩
    have hmod : ((unpackWord little chunk : Nat) : Int) % (2 ^ (8 * chunk.length))
        = ((unpackWord little chunk : Nat) : Int) :=
      Int.emod_eq_of_lt hn0 hltZ
    have htn : ((unpackWord little chunk : Nat) : Int).toNat
        = unpackWord little chunk := by omega
    simp only [toSigned, if_pos hc, packInt, if_pos hcond, if_true, hmod, htn]
    rw [packWord_unpackWord little chunk h]
  · have hcZ : (2:Int) ^ (8 * chunk.length - 1)
        ≤ ((unpackWord little chunk : Nat) : Int) := by
      have := Nat.le_of_not_lt hc
      exact_mod_cast this
    have hcond : -((2:Int) ^ (8 * chunk.length - 1))
        ≤ ((unpackWord little chunk : Nat) : Int) - 2 ^ (8 * chunk.length) ∧
        ((unpackWord little chunk : Nat) : Int) - 2 ^ (8 * chunk.length)
          < 2 ^ (8 * chunk.length - 1) := by
      constructor <;> omega
    have hmod : (((unpackWord little chunk : Nat) : Int)
        - 2 ^ (8 * chunk.length)) % (2 ^ (8 * chunk.length))
        = ((unpackWord little chunk : Nat) : Int) := by
      rw [Int.sub_emod, Int.emod_self, sub_zero,
        Int.emod_emod_of_dvd _ dvd_rfl]
      exact Int.emod_eq_of_lt hn0 hltZ
    have htn : ((unpackWord little chunk : Nat) : Int).toNat
        = unpackWord little chunk := by omega
    simp only [toSigned, if_neg hc, packInt, if_pos hcond, if_true, hmod, htn]
    rw [packWord_unpackWord little chunk h]

/-- Per-column round trip for the plain kinds: a non-bitfield,
non-enum column decodes its chunk to one value, and packing that value
back yields the original chunk. -/
theorem plain_roundtrip (little : Bool) (c : ColumnInfo)
    (hbit : c.type.isBit = false) (henum : c.type.isEnum = false)
    (chunk : Buf) (hlen : chunk.length = c.type.width)
    (hb : ∀ b ∈ chunk, b < 256)
    (hq : c.type = .f32 →
      quiet32 (unpackWord little chunk) = unpackWord little chunk) :
    ∃ v, decodeField little none (.real c) chunk = .ok [v] ∧
      packPlain little c.type v = .ok chunk := by
  cases htype : c.type <;>
    first
  | -- bitfield and enum kinds: excluded by the hypotheses
    (rw [htype] at hbit; simp [ColType.isBit] at hbit; done)
  | (rw [htype] at henum; simp [ColType.isEnum] at henum; done)
  | -- signed integer formats
    (simp only [htype, ColType.width] at hlen
     refine ⟨.int (toSigned chunk.length (unpackWord little chunk)), ?_, ?_⟩
     · simp [decodeField, htype, ColType.isBit, ColType.isEnum,
         ColType.isSigned, ColType.width, hlen]
     · simp only [packPlain, htype, ColType.isSigned, ColType.width]
       rw [← hlen]
       exact packInt_signed_round little chunk (by omega) hb)
  | -- the 32-bit float format: decode applies the widening conversion
    -- (the identity on the quiet-stable patterns assumed by the claim)
    (simp only [htype, ColType.width] at hlen
     refine ⟨.flt (quiet32 (unpackWord little chunk)), ?_, ?_⟩
     · simp [decodeField, htype, ColType.isBit, ColType.isEnum, ColType.isSigned]
     · simp only [packPlain, htype, if_pos]
       rw [hq htype, ← hlen]
       rw [packWord_unpackWord little chunk hb])
  | -- unsigned integer formats, 'str' without a hook, and 'ptr'
    (simp only [htype, ColType.width] at hlen
     refine ⟨.int ((unpackWord little chunk : Nat) : Int), ?_, ?_⟩
     · simp [decodeField, htype, ColType.isBit, ColType.isEnum, ColType.isSigned]
     · simp only [packPlain, htype, ColType.isSigned, ColType.width]
       rw [← hlen]
       exact packInt_unsigned_round little chunk hb)

/-- Field-list round trip: over compiled fields that are all plain
columns, decoding the row bytes and re-packing the resulting values
reproduces the bytes exactly. -/
theorem feedFields_roundtrip (little : Bool) :
    ∀ (fields : List FieldSpec) (bs : Buf),
      (∀ f ∈ fields, plainField f = true) →
      bs.length = widthSum fields →
      (∀ b ∈ bs, b < 256) →
      quietFloats little fields bs = true →
      ∃ row, feedFields little none fields bs = .ok row ∧
        tobytesFieldsG little fields row = .ok bs := by
  intro fields
  induction fields with
  | nil =>
    intro bs _ hl _ _
    have hbs : bs = [] := List.length_eq_zero.mp (by simpa [widthSum_nil] using hl)
    subst hbs
    exact ⟨[], rfl, rfl⟩
  | cons f fs ih =>
    intro bs hp hl hb hqf
    have hpf : plainField f = true := hp f (List.mem_cons_self f fs)
    have hpfs : ∀ f' ∈ fs, plainField f' = true :=
      fun f' hf' => hp f' (List.mem_cons_of_mem f hf')
    obtain ⟨c, rfl⟩ : ∃ c, f = .real c := by
      cases f with
      | gap w => simp [plainField] at hpf
      | real c => exact ⟨c, rfl⟩
    have hbit : c.type.isBit = false := by
      simp [plainField, Bool.and_eq_true] at hpf
      exact hpf.1
    have henum : c.type.isEnum = false := by
      simp [plainField, Bool.and_eq_true] at hpf
      exact hpf.2
    simp only [quietFloats, Bool.and_eq_true] at hqf
    obtain ⟨hqhead, hqtail⟩ := hqf
    have hq : c.type = .f32 →
        quiet32 (unpackWord little (bs.take c.type.width))
          = unpackWord little (bs.take c.type.width) := by
      intro hf
      rw [if_pos hf] at hqhead
      simp only [decide_eq_true_eq] at hqhead
      simpa [FieldSpec.width_real] using hqhead
    rw [FieldSpec.width_real] at hqtail
    rw [widthSum_cons, FieldSpec.width_real] at hl
    have hchunklen : (bs.take c.type.width).length = c.type.width := by
      rw [List.length_take]
      omega
    have hchunkb : ∀ b ∈ bs.take c.type.width, b < 256 :=
      fun b hbm => hb b (List.take_subset _ _ hbm)
    have hdroplen : (bs.drop c.type.width).length = widthSum fs := by
      rw [List.length_drop]
      omega
    have hdropb : ∀ b ∈ bs.drop c.type.width, b < 256 :=
      fun b hbm => hb b (List.drop_subset _ _ hbm)
    obtain ⟨v, hdec, hpack⟩ :=
      plain_roundtrip little c hbit henum (bs.take c.type.width) hchunklen
        hchunkb hq
    obtain ⟨row, hfeed, htob⟩ :=
      ih (bs.drop c.type.width) hpfs hdroplen hdropb hqtail
    refine ⟨v :: row, ?_, ?_⟩
    · simp [feedFields, FieldSpec.width_real, hdec, hfeed]
    · simp [tobytesFieldsG, hbit, hpack, htob, List.take_append_drop]

/-- Claim C1, counterexample. The claim says decoding a row and
re-encoding it reproduces the original bytes for every field kind
except bitfields — explicitly including float, enum and gap fields. In
fact `tobytes` as written raises `AttributeError` on its first column
(`self.__getattr__` does not exist on namedtuples), so the round trip
fails even for a plain one-column `u8` layout; and even with the
attribute access repaired to `getattr` (`tobytesGetattr`):
* an enum column fails — its decoded value is the display label, which
  `struct.pack` rejects with `struct.error`;
* a layout with a gap field fails with `KeyError`, because the
  synthesized gap entry has no `'name'` key;
* an `f32` column is not byte-exact on a signaling NaN pattern:
  `unpack('f')` widens through a C double, which quiets it, so the
  chunk `01 00 80 7F` (pattern `0x7F800001`) re-encodes as
  `01 00 C0 7F` (pattern `0x7FC00001`, quiet bit set). -/
theorem C1_counterexample :
    (feed (newrowclass none 1 [⟨"a", .u8, 0, [], []⟩]) [7] none
        = .ok [.int 7] ∧
      tobytes (newrowclass none 1 [⟨"a", .u8, 0, [], []⟩]) [.int 7]
        = .error .attributeError) ∧
    (feed (newrowclass none 1 [⟨"e", .enum8, 0, [], [(0, "Zero")]⟩]) [0] none
        = .ok [.str "Zero"] ∧
      tobytesGetattr (newrowclass none 1 [⟨"e", .enum8, 0, [], [(0, "Zero")]⟩])
        [.str "Zero"] = .error .typeError) ∧
    (feed (newrowclass none 2 [⟨"a", .u8, 1, [], []⟩]) [9, 7] none
        = .ok [.bytes [9], .int 7] ∧
      tobytesGetattr (newrowclass none 2 [⟨"a", .u8, 1, [], []⟩])
        [.bytes [9], .int 7] = .error .keyErrorName) ∧
    (feed (newrowclass none 4 [⟨"c", .f32, 0, [], []⟩]) [1, 0, 0x80, 0x7F] none
        = .ok [.flt 0x7FC00001] ∧
      tobytesGetattr (newrowclass none 4 [⟨"c", .f32, 0, [], []⟩])
        [.flt 0x7FC00001] = .ok [1, 0, 0xC0, 0x7F]) :=
  ⟨⟨rfl, rfl⟩, ⟨rfl, rfl⟩, ⟨rfl, rfl⟩, ⟨rfl, rfl⟩⟩

/-- Claim C1, amended: as written, `tobytes` raises `AttributeError`
for every layout with at least one field, so the byte-level round trip
fails for all non-empty layouts. Under the evident intended reading of
the attribute access (`getattr(self, ...)`, the only reading under
which encoding can proceed), decode followed by encode reproduces the
original bytes exactly for every layout whose compiled fields are all
plain declared columns — integers, float, string-reference without a
resolution hook, and pointer — provided no `f32` chunk holds a
signaling NaN pattern (`quietFloats`; the widening conversion of
`unpack('f')` quiets such a pattern, so it re-encodes with its quiet
bit set); the round trip does not hold for bitfields (as the claim
already excepts), nor for enum columns, synthesized gap fields, or
signaling-NaN float chunks (see `C1_counterexample`). -/
theorem C1_roundtrip :
    (∀ (rc : RowClass) (row : List Value),
      rc.fields ≠ [] → tobytes rc row = .error .attributeError) ∧
    (∀ (e : Option Endian) (L : Nat) (cols : List ColumnInfo) (bs : Buf),
      (∀ f ∈ (newrowclass e L cols).fields, plainField f = true) →
      bs.length = widthSum (newrowclass e L cols).fields →
      (∀ b ∈ bs, b < 256) →
      quietFloats (newrowclass e L cols).little
        (newrowclass e L cols).fields bs = true →
      ∃ row, feed (newrowclass e L cols) bs none = .ok row ∧
        tobytesGetattr (newrowclass e L cols) row = .ok bs) := by
  constructor
  · intro rc row hne
    cases hf : rc.fields with
    | nil => exact absurd hf hne
    | cons f fs => simp [tobytes, hf]
  · intro e L cols bs hplain hlen hb hqf
    obtain ⟨row, hfeed, htob⟩ :=
      feedFields_roundtrip (newrowclass e L cols).little
        (newrowclass e L cols).fields bs hplain hlen hb hqf
    exact ⟨row, by simp [feed, hlen, hfeed], htob⟩

/-- Witness for C1 (amended): a 15-byte layout exercising `u16`, `s8`,
`f32`, `str` (no hook) and `ptr` columns with no gaps, on a concrete
row whose float chunk is a quiet NaN (pattern `0x7FC00000`, so
quiet-stable); and the `AttributeError` conjunct at the same layout. -/
theorem C1_roundtrip_witness :
    ((newrowclass none 15 [⟨"a", .u16, 0, [], []⟩, ⟨"b", .s8, 2, [], []⟩,
        ⟨"c", .f32, 3, [], []⟩, ⟨"d", .str, 7, [], []⟩,
        ⟨"p", .ptr, 11, [], []⟩]).fields ≠ [] ∧
      tobytes (newrowclass none 15 [⟨"a", .u16, 0, [], []⟩, ⟨"b", .s8, 2, [], []⟩,
        ⟨"c", .f32, 3, [], []⟩, ⟨"d", .str, 7, [], []⟩,
        ⟨"p", .ptr, 11, [], []⟩]) [] = .error .attributeError) ∧
    ((∀ f ∈ (newrowclass none 15 [⟨"a", .u16, 0, [], []⟩, ⟨"b", .s8, 2, [], []⟩,
        ⟨"c", .f32, 3, [], []⟩, ⟨"d", .str, 7, [], []⟩,
        ⟨"p", .ptr, 11, [], []⟩]).fields, plainField f = true) ∧
      quietFloats (newrowclass none 15 [⟨"a", .u16, 0, [], []⟩,
        ⟨"b", .s8, 2, [], []⟩, ⟨"c", .f32, 3, [], []⟩, ⟨"d", .str, 7, [], []⟩,
        ⟨"p", .ptr, 11, [], []⟩]).little
        (newrowclass none 15 [⟨"a", .u16, 0, [], []⟩, ⟨"b", .s8, 2, [], []⟩,
          ⟨"c", .f32, 3, [], []⟩, ⟨"d", .str, 7, [], []⟩,
          ⟨"p", .ptr, 11, [], []⟩]).fields
        [1, 2, 0x85, 0, 0, 0xC0, 0x7F, 4, 3, 2, 1, 0xFF, 0xFE, 0xFD, 0xFC]
        = true ∧
      ∃ row, feed (newrowclass none 15 [⟨"a", .u16, 0, [], []⟩,
          ⟨"b", .s8, 2, [], []⟩, ⟨"c", .f32, 3, [], []⟩, ⟨"d", .str, 7, [], []⟩,
          ⟨"p", .ptr, 11, [], []⟩])
          [1, 2, 0x85, 0, 0, 0xC0, 0x7F, 4, 3, 2, 1, 0xFF, 0xFE, 0xFD, 0xFC]
          none = .ok row ∧
        tobytesGetattr (newrowclass none 15 [⟨"a", .u16, 0, [], []⟩,
          ⟨"b", .s8, 2, [], []⟩, ⟨"c", .f32, 3, [], []⟩, ⟨"d", .str, 7, [], []⟩,
          ⟨"p", .ptr, 11, [], []⟩]) row
          = .ok [1, 2, 0x85, 0, 0, 0xC0, 0x7F, 4, 3, 2, 1, 0xFF, 0xFE, 0xFD, 0xFC]) := by
  refine ⟨⟨by decide, C1_roundtrip.1 _ [] (by decide)⟩, by decide, by decide, ?_⟩
  exact C1_roundtrip.2 none 15 _ _ (by decide) (by decide) (by decide) (by decide)

/-- Claim C2 states the spec's bitfield correctness property:
re-encoding a decoded row and decoding the result must reproduce the
sub-field values. The code cannot satisfy it, in two layers, shown
here at a `bit8` column with sub-fields `a` (bits 0-3) and `b`
(bits 4-7) decoded from the byte `0xAB` (so `a = 0xB`, `b = 0xA`):
1. `tobytes` as written raises `AttributeError` before any packing
   (see `tobytes`);
2. with the attribute access repaired to `getattr`, the packing fold
   of lines 104-106 — `bitdata |= mask << offset` followed by
   `bitdata &= subvalue << offset` — ANDs the whole accumulator with
   the shifted sub-value, zeroing every bit outside the current
   sub-field: the row re-encodes to `0xA0`, which decodes back to
   `a = 0` and `b = 0xA`, losing `a = 0xB`.
The spec flags exactly this (§9: the mask/AND order "does not
reconstruct the original composite correctly in general"), so the
claim is the intended behavior and the code is the bug. -/
theorem C2_bitfield_packing_bug :
    feed (newrowclass none 1 [⟨"f", .bit8, 0, [⟨"a", 0, 4⟩, ⟨"b", 4, 4⟩], []⟩])
        [0xAB] none = .ok [.int 0xAB, .int 0xB, .int 0xA] ∧
    tobytes (newrowclass none 1 [⟨"f", .bit8, 0, [⟨"a", 0, 4⟩, ⟨"b", 4, 4⟩], []⟩])
        [.int 0xAB, .int 0xB, .int 0xA] = .error .attributeError ∧
    tobytesGetattr
        (newrowclass none 1 [⟨"f", .bit8, 0, [⟨"a", 0, 4⟩, ⟨"b", 4, 4⟩], []⟩])
        [.int 0xAB, .int 0xB, .int 0xA] = .ok [0xA0] ∧
    feed (newrowclass none 1 [⟨"f", .bit8, 0, [⟨"a", 0, 4⟩, ⟨"b", 4, 4⟩], []⟩])
        [0xA0] none = .ok [.int 0xA0, .int 0, .int 0xA] :=
  ⟨rfl, rfl, rfl, rfl⟩

end FLTools
